import Mathlib

/-!
Verification of the cryptotrader collector (src/main.py) against its
specification. The python program is shallowly embedded: pandas frames
become lists of rows, SQLAlchemy sessions become explicit state passing
with a commit oracle deciding which rows the database rejects, wall-clock
timestamps become an abstract natural-number parameter, and python
exceptions become Except / Option results.
-/

namespace CryptoTrader

/-- One fetched quote; also one row of the crypto_prices table
(columns symbol, price, volume_24h, percent_change_24h, timestamp).
Numeric fields are modelled as rationals. -/
structure Quote where
  symbol : String
  price : ℚ
  volume_24h : ℚ
  percent_change_24h : ℚ
  timestamp : ℕ
deriving DecidableEq, Repr

/-- The three trading signals emitted by TradeAnalyzer.analyze. -/
inductive Signal where
  | BUY
  | SELL
  | HOLD
deriving DecidableEq, Repr

/-- The string stored in the signal column of trade_signals. -/
def Signal.asString : Signal → String
  | .BUY => "BUY"
  | .SELL => "SELL"
  | .HOLD => "HOLD"

/-- One row of the trade_signals table. -/
structure SignalRow where
  symbol : String
  signal : String
  timestamp : ℕ
deriving DecidableEq, Repr

/-- The two append-only tables owned by the database. -/
structure DB where
  crypto_prices : List Quote
  trade_signals : List SignalRow
deriving DecidableEq, Repr

/-- Pandas exceptions that TradeAnalyzer.analyze can raise. -/
inductive PandasError where
  | keyError (col : String)
  | indexError
deriving DecidableEq, Repr

/-- Column selection on a frame built from a list of row dicts
(main.py line 151, the data.symbol access written with brackets): a frame
built from the empty list has no columns at all, so selecting any column
raises KeyError; on a nonempty list every row carries every column. -/
def getColumn {α : Type} (rows : List Quote) (col : String) (f : Quote → α) :
    Except PandasError (List α) :=
  if rows.isEmpty then .error (.keyError col) else .ok (rows.map f)

/-- Series.unique on the symbol column: distinct values in order of first
appearance. -/
def uniqueVals (l : List String) : List String :=
  l.foldl (fun acc s => if s ∈ acc then acc else acc ++ [s]) []

/-- Row selection .iloc at position 0: first row of a frame, IndexError
when the frame is empty (main.py line 152). -/
def iloc0 (rows : List Quote) : Except PandasError Quote :=
  match rows with
  | [] => .error .indexError
  | q :: _ => .ok q

/-- The threshold rule applied to the representative row of a symbol
(main.py lines 154-161): BUY when percent_change_24h is strictly above 5
and volume_24h strictly above 1000000, else SELL when percent_change_24h
is strictly below -5, else HOLD. -/
def signalFor (q : Quote) : Signal :=
  if q.percent_change_24h > 5 ∧ q.volume_24h > 1000000 then .BUY
  else if q.percent_change_24h < -5 then .SELL
  else .HOLD

/-- Loop body of TradeAnalyzer.analyze: for each symbol in the given
order, filter the frame to the rows of that symbol, take the first such
row with .iloc at 0, apply the threshold rule, and record the entry in
the signals dict (insertion order preserved, as in a python dict). -/
def analyzeRows (data : List Quote) :
    List String → Except PandasError (List (String × Signal))
  | [] => .ok []
  | s :: rest =>
    match iloc0 (data.filter (fun q => q.symbol == s)) with
    | .error e => .error e
    | .ok q =>
      match analyzeRows data rest with
      | .error e => .error e
      | .ok sigs => .ok ((s, signalFor q) :: sigs)

/-- TradeAnalyzer carries a lookback_periods knob (default 24) set in its
constructor (main.py lines 142-144). The db_manager handle it also stores
is not modelled: analyze never touches it and database state is passed
explicitly. -/
structure TradeAnalyzer where
  lookback_periods : ℕ := 24
deriving DecidableEq, Repr

/-- TradeAnalyzer.analyze (main.py lines 146-163): select the symbol
column (KeyError on the column-less empty frame), list its unique values,
and classify the first row of each symbol group. The body never reads
lookback_periods. -/
def TradeAnalyzer.analyze (_self : TradeAnalyzer) (data : List Quote) :
    Except PandasError (List (String × Signal)) :=
  match getColumn data "symbol" Quote.symbol with
  | .error e => .error e
  | .ok syms => analyzeRows data (uniqueVals syms)

/-- DatabaseManager.store_crypto_data (main.py lines 46-63): every row of
the frame is staged with session.add, then session.commit writes all
staged rows atomically or raises a SQLAlchemyError (modelled by the
commitFails oracle naming the rows the database rejects); on error the
except branch rolls the session back, leaving the committed state
unchanged, and re-raises. The result is the database state after the
call, paired with the propagated error message if one was raised. -/
def store_crypto_data (commitFails : Quote → Bool) (db : DB)
    (data : List Quote) : DB × Option String :=
  let staged := data.foldl (fun pending row => pending ++ [row]) []
  if staged.any commitFails then
    (db, some "Error storing crypto data")
  else
    ({ db with crypto_prices := db.crypto_prices ++ staged }, none)

/-- DatabaseManager.store_signals (main.py lines 66-81): same session
pattern as store_crypto_data, in its own independent transaction; each
dict entry becomes a trade_signals row stamped with the current time. -/
def store_signals (commitFails : SignalRow → Bool) (now : ℕ) (db : DB)
    (signals : List (String × Signal)) : DB × Option String :=
  let staged := signals.foldl
    (fun pending p => pending ++ [SignalRow.mk p.1 p.2.asString now]) []
  if staged.any commitFails then
    (db, some "Error storing signals")
  else
    ({ db with trade_signals := db.trade_signals ++ staged }, none)

/-- The most-recent-first ordering produced by the order_by clause on the
timestamp column, descending. -/
def newestFirst (a b : Quote) : Prop := b.timestamp ≤ a.timestamp

instance : DecidableRel newestFirst := fun a b => Nat.decLe b.timestamp a.timestamp

instance : IsTotal Quote newestFirst := ⟨fun a b => Nat.le_total b.timestamp a.timestamp⟩

instance : IsTrans Quote newestFirst := ⟨fun _ _ _ hab hbc => Nat.le_trans hbc hab⟩

/-- DatabaseManager.get_recent_prices (main.py lines 83-94): query the
crypto_prices rows of the given symbol, most recent first, truncated to
the limit. A SQLAlchemyError raised by the read (the readFails oracle) is
caught and turned into an empty frame rather than propagated. -/
def get_recent_prices (db : DB) (readFails : Bool) (symbol : String)
    (limit : ℕ) : List Quote :=
  if readFails then []
  else
    (((db.crypto_prices.filter (fun q => q.symbol == symbol)).insertionSort
      newestFirst).take limit)

/-- A call of get_recent_prices that omits the limit argument: the python
default is limit = 24. -/
def get_recent_prices_default (db : DB) (readFails : Bool)
    (symbol : String) : List Quote :=
  get_recent_prices db readFails symbol 24

/-- The per-symbol payload of the quotes endpoint (the USD quote object:
price, volume_24h, percent_change_24h). -/
structure CoinQuote where
  price : ℚ
  volume_24h : ℚ
  percent_change_24h : ℚ
deriving DecidableEq, Repr

/-- The parsed JSON body of the quotes endpoint response: HTTP status
code, the data object keyed by symbol, and the error message carried by
the status object. -/
structure ApiResponse where
  status_code : ℕ
  data : List (String × CoinQuote)
  error_message : Option String
deriving DecidableEq, Repr

/-- Outcome of the HTTP request issued by get_latest_prices: either some
exception during the request or parsing (transport failure), or a parsed
response. -/
inductive FetchEnv where
  | raises
  | responds (resp : ApiResponse)
deriving DecidableEq, Repr

/-- CryptoDataCollector.get_latest_prices (main.py lines 106-139): on a
200 response, emit one quote per requested symbol present in the data
object, in requested order, stamped with the receive time; requested
symbols absent from the response are skipped. A non-200 response and any
exception are both caught inside the method and turned into None. -/
def get_latest_prices (now : ℕ) (symbols : List String) (env : FetchEnv) :
    Option (List Quote) :=
  match env with
  | .raises => none
  | .responds resp =>
    if resp.status_code = 200 then
      some (symbols.filterMap (fun s =>
        (resp.data.lookup s).map (fun cd =>
          { symbol := s, price := cd.price, volume_24h := cd.volume_24h,
            percent_change_24h := cd.percent_change_24h, timestamp := now })))
    else
      none

/-- What the loop body does after one cycle: stop (the break on
KeyboardInterrupt) or sleep a number of seconds and go round again. -/
inductive CycleOutcome where
  | stopped
  | sleep (seconds : ℕ)
deriving DecidableEq, Repr

/-- One iteration of the while-True loop in main (main.py lines 177-206):
fetch; when a frame came back, store it, classify it, store the signals
and print the report, then sleep 300; when None came back, skip straight
to the 300 second sleep. A KeyboardInterrupt breaks the loop; any other
exception raised inside the body is caught, logged, and followed by a 60
second sleep. The interrupted flag says whether a KeyboardInterrupt
arrives during this cycle. -/
def runCycle (now : ℕ) (symbols : List String) (analyzer : TradeAnalyzer)
    (qFail : Quote → Bool) (sFail : SignalRow → Bool)
    (db : DB) (interrupted : Bool) (env : FetchEnv) : DB × CycleOutcome :=
  if interrupted then (db, .stopped)
  else
    match get_latest_prices now symbols env with
    | none => (db, .sleep 300)
    | some rows =>
      match store_crypto_data qFail db rows with
      | (db1, some _) => (db1, .sleep 60)
      | (db1, none) =>
        match analyzer.analyze rows with
        | .error _ => (db1, .sleep 60)
        | .ok signals =>
          match store_signals sFail now db1 signals with
          | (db2, some _) => (db2, .sleep 60)
          | (db2, none) => (db2, .sleep 300)

/-- The events of one cycle: whether a KeyboardInterrupt arrives, and how
the network behaves. -/
structure CycleEnv where
  interrupted : Bool
  fetch : FetchEnv
deriving Repr

/-- Runs the loop through a list of per-cycle environments, threading the
database; returns the final database and whether the loop was stopped by
a KeyboardInterrupt before the environments ran out. -/
def runLoop (now : ℕ) (symbols : List String) (analyzer : TradeAnalyzer)
    (qFail : Quote → Bool) (sFail : SignalRow → Bool) :
    List CycleEnv → DB → DB × Bool
  | [], db => (db, false)
  | e :: rest, db =>
    match runCycle now symbols analyzer qFail sFail db e.interrupted e.fetch with
    | (db1, .stopped) => (db1, true)
    | (db1, .sleep _) => runLoop now symbols analyzer qFail sFail rest db1

/-- main (main.py lines 165-208): startup constructs the DatabaseManager;
when the connection cannot be established the constructor raises, main
prints a fatal error and the loop is never entered (result none).
Otherwise the loop runs over an initially empty database. -/
def mainRun (connFails : Bool) (now : ℕ) (symbols : List String)
    (qFail : Quote → Bool) (sFail : SignalRow → Bool)
    (envs : List CycleEnv) : Option (DB × Bool) :=
  if connFails then none
  else some (runLoop now symbols (TradeAnalyzer.mk 24) qFail sFail envs (DB.mk [] []))

/-! ### Concrete data used by witnesses and counterexamples -/

/-- A BTC quote observed at time t, for concrete tests. -/
def wbtc (t : ℕ) : Quote := Quote.mk "BTC" 100 2000000 1 t

/-- A database holding ten stored BTC quotes, observed at times 0-9. -/
def wdbTen : DB := DB.mk ((List.range 10).map wbtc) []

/-- A 200 response whose data object holds one BTC entry. -/
def wRespBTC : ApiResponse :=
  ApiResponse.mk 200 [("BTC", CoinQuote.mk 100 2000000 6)] none

/-- The quote that wRespBTC yields at receive time 0. -/
def wQuoteBTC : Quote := Quote.mk "BTC" 100 2000000 6 0

/-- A 200 response whose data object holds no requested symbol. -/
def wRespEmpty : ApiResponse := ApiResponse.mk 200 [] none

/-- A BTC row whose representative values would give BUY. -/
def wFirstBTC : Quote := Quote.mk "BTC" 100 2000000 6 0

/-- A later BTC row whose values would give SELL, to separate
first-occurrence from most-recent. -/
def wLaterBTC : Quote := Quote.mk "BTC" 90 2000000 (-6) 1

/-! ### Helper lemmas -/

theorem foldl_append_singleton {α : Type} (l acc : List α) :
    l.foldl (fun pending row => pending ++ [row]) acc = acc ++ l := by
  induction l generalizing acc with
  | nil => simp
  | cons a l ih => simp [ih]

theorem foldl_append_map {α β : Type} (f : α → β) (l : List α) (acc : List β) :
    l.foldl (fun pending x => pending ++ [f x]) acc = acc ++ l.map f := by
  induction l generalizing acc with
  | nil => simp
  | cons a l ih => simp [ih]

/-- Closed form of store_crypto_data: the staged rows are exactly the
input rows, so commit appends the whole batch and rollback restores the
original state. -/
theorem store_crypto_data_eq (commitFails : Quote → Bool) (db : DB)
    (data : List Quote) :
    store_crypto_data commitFails db data =
      if data.any commitFails then (db, some "Error storing crypto data")
      else ({ db with crypto_prices := db.crypto_prices ++ data }, none) := by
  simp only [store_crypto_data, foldl_append_singleton, List.nil_append]

/-- Closed form of store_signals. -/
theorem store_signals_eq (commitFails : SignalRow → Bool) (now : ℕ) (db : DB)
    (signals : List (String × Signal)) :
    store_signals commitFails now db signals =
      if (signals.map (fun p => SignalRow.mk p.1 p.2.asString now)).any commitFails then
        (db, some "Error storing signals")
      else
        ({ db with trade_signals :=
            db.trade_signals ++ signals.map (fun p => SignalRow.mk p.1 p.2.asString now) },
         none) := by
  simp only [store_signals, foldl_append_map, List.nil_append]

theorem mem_foldl_uniq (l : List String) (acc : List String) (x : String) :
    x ∈ l.foldl (fun acc s => if s ∈ acc then acc else acc ++ [s]) acc ↔
      x ∈ acc ∨ x ∈ l := by
  induction l generalizing acc with
  | nil => simp
  | cons a l ih =>
    simp only [List.foldl_cons]
    by_cases ha : a ∈ acc
    · rw [if_pos ha, ih, List.mem_cons]
      constructor
      · rintro (h | h)
        · exact Or.inl h
        · exact Or.inr (Or.inr h)
      · rintro (h | h | h)
        · exact Or.inl h
        · exact Or.inl (h ▸ ha)
        · exact Or.inr h
    · rw [if_neg ha, ih, List.mem_append, List.mem_singleton, List.mem_cons]
      tauto

theorem mem_uniqueVals (l : List String) (x : String) :
    x ∈ uniqueVals l ↔ x ∈ l := by
  simp [uniqueVals, mem_foldl_uniq]

theorem nodup_foldl_uniq (l : List String) (acc : List String) (h : acc.Nodup) :
    (l.foldl (fun acc s => if s ∈ acc then acc else acc ++ [s]) acc).Nodup := by
  induction l generalizing acc with
  | nil => simpa
  | cons a l ih =>
    simp only [List.foldl_cons]
    by_cases ha : a ∈ acc
    · rw [if_pos ha]
      exact ih acc h
    · rw [if_neg ha]
      refine ih _ ?_
      rw [List.nodup_append]
      exact ⟨h, List.nodup_singleton a, by simpa [List.disjoint_singleton] using ha⟩

theorem nodup_uniqueVals (l : List String) : (uniqueVals l).Nodup :=
  nodup_foldl_uniq l [] List.nodup_nil

/-- Taking the first row of a filtered frame is finding the first
matching row. -/
theorem iloc0_filter (data : List Quote) (p : Quote → Bool) :
    iloc0 (data.filter p) =
      match data.find? p with
      | none => .error .indexError
      | some q => .ok q := by
  induction data with
  | nil => rfl
  | cons a data ih =>
    cases hpa : p a
    · simpa [List.filter_cons, List.find?_cons, hpa] using ih
    · simp [List.filter_cons, List.find?_cons, hpa, iloc0]

/-- When every listed symbol has a matching row, the analyze loop
succeeds and yields one entry per listed symbol, in order. -/
theorem analyzeRows_ok (data : List Quote) (syms : List String)
    (h : ∀ s ∈ syms, ∃ q ∈ data, q.symbol = s) :
    ∃ out, analyzeRows data syms = .ok out ∧ out.map Prod.fst = syms := by
  induction syms with
  | nil => exact ⟨[], rfl, rfl⟩
  | cons s rest ih =>
    obtain ⟨q, hq, hqs⟩ := h s (List.mem_cons_self s rest)
    have hfind : (data.find? (fun r => r.symbol == s)).isSome := by
      rw [List.find?_isSome]
      exact ⟨q, hq, by simp [hqs]⟩
    obtain ⟨q0, hq0⟩ := Option.isSome_iff_exists.mp hfind
    obtain ⟨out, hout, hmap⟩ := ih (fun t ht => h t (List.mem_cons_of_mem s ht))
    refine ⟨(s, signalFor q0) :: out, ?_, by simp [hmap]⟩
    simp [analyzeRows, iloc0_filter, hq0, hout]

/-- Core of the first-wins claim: along a duplicate-free symbol list
containing s, the analyze loop emits exactly one entry for s, built from
the first row of data whose symbol is s. -/
theorem analyzeRows_filter_first (data : List Quote) (syms : List String)
    (s : String) (q : Quote) (hnod : syms.Nodup) (hs : s ∈ syms)
    (hall : ∀ t ∈ syms, ∃ r ∈ data, r.symbol = t)
    (hfind : data.find? (fun r => r.symbol == s) = some q) :
    ∃ out, analyzeRows data syms = .ok out ∧
      out.filter (fun p => p.1 == s) = [(s, signalFor q)] := by
  induction syms with
  | nil => cases hs
  | cons t rest ih =>
    obtain ⟨r0, hr0, hr0t⟩ := hall t (List.mem_cons_self t rest)
    have hfindt : (data.find? (fun r => r.symbol == t)).isSome := by
      rw [List.find?_isSome]
      exact ⟨r0, hr0, by simp [hr0t]⟩
    obtain ⟨q0, hq0⟩ := Option.isSome_iff_exists.mp hfindt
    by_cases hts : t = s
    · subst hts
      have hq0q : q0 = q := Option.some.inj (hq0.symm.trans hfind)
      subst hq0q
      have htrest : t ∉ rest := (List.nodup_cons.mp hnod).1
      obtain ⟨out, hout, hmap⟩ :=
        analyzeRows_ok data rest (fun u hu => hall u (List.mem_cons_of_mem t hu))
      have hfil : out.filter (fun p => p.1 == t) = [] := by
        rw [List.filter_eq_nil_iff]
        intro p hp
        have hp1 : p.1 ∈ rest := by
          rw [← hmap]
          exact List.mem_map_of_mem Prod.fst hp
        simp only [beq_iff_eq]
        intro he
        exact htrest (he ▸ hp1)
      refine ⟨(t, signalFor q0) :: out, ?_, ?_⟩
      · simp [analyzeRows, iloc0_filter, hq0, hout]
      · simp [List.filter_cons, hfil]
    · have hsrest : s ∈ rest := by
        rcases List.mem_cons.mp hs with h | h
        · exact absurd h.symm hts
        · exact h
      obtain ⟨out1, hout1, hfil1⟩ :=
        ih (List.nodup_cons.mp hnod).2 hsrest
          (fun u hu => hall u (List.mem_cons_of_mem t hu))
      refine ⟨(t, signalFor q0) :: out1, ?_, ?_⟩
      · simp [analyzeRows, iloc0_filter, hq0, hout1]
      · have hne : (t == s) = false := beq_eq_false_iff_ne.mpr hts
        simp [List.filter_cons, hne, hfil1]

/-! ### Claim theorems -/

/-- C1: the signal emitted for the representative row of a symbol follows
the fixed rule, evaluated in precedence order: BUY exactly when
percent_change_24h is strictly above 5 and volume_24h is strictly above
1000000; otherwise SELL exactly when percent_change_24h is strictly below
-5; otherwise HOLD. In particular percent_change_24h 5 with volume 1000001
gives HOLD, 51/10 with volume 999999 gives HOLD, 51/10 with volume
1000001 gives BUY, -51/10 gives SELL whatever the volume, and -5 gives
HOLD. -/
theorem signalFor_rule :
    (∀ q : Quote,
        (signalFor q = .BUY ↔
            5 < q.percent_change_24h ∧ 1000000 < q.volume_24h) ∧
        (signalFor q = .SELL ↔
            ¬(5 < q.percent_change_24h ∧ 1000000 < q.volume_24h) ∧
              q.percent_change_24h < -5) ∧
        (signalFor q = .HOLD ↔
            ¬(5 < q.percent_change_24h ∧ 1000000 < q.volume_24h) ∧
              ¬q.percent_change_24h < -5)) ∧
    signalFor (Quote.mk "X" 0 1000001 5 0) = .HOLD ∧
    signalFor (Quote.mk "X" 0 999999 (51 / 10) 0) = .HOLD ∧
    signalFor (Quote.mk "X" 0 1000001 (51 / 10) 0) = .BUY ∧
    (∀ v : ℚ, signalFor (Quote.mk "X" 0 v ((-51) / 10) 0) = .SELL) ∧
    signalFor (Quote.mk "X" 0 1000001 (-5) 0) = .HOLD := by
  refine ⟨?_, ?_, ?_, ?_, ?_, ?_⟩
  · intro q
    unfold signalFor
    split_ifs with h1 h2 <;> simp_all
  · norm_num [signalFor]
  · norm_num [signalFor]
  · norm_num [signalFor]
  · intro v
    norm_num [signalFor]
  · norm_num [signalFor]

/-- C1 witness: the rule evaluated at a concrete quote with change 6 and
volume 2000000 gives BUY. -/
theorem signalFor_rule_witness :
    signalFor (Quote.mk "Y" 0 2000000 6 0) = .BUY :=
  ((signalFor_rule.1 (Quote.mk "Y" 0 2000000 6 0)).1).mpr
    ⟨by norm_num, by norm_num⟩

/-- C2: store_crypto_data is all-or-nothing: either no row of the batch
fails, every row is appended to crypto_prices (the signals table
untouched) and no error surfaces, or some row fails, the stored state is
exactly the state before the call (rolled back), and the error is
propagated to the caller. -/
theorem store_crypto_data_atomic (commitFails : Quote → Bool) (db : DB)
    (data : List Quote) :
    ((store_crypto_data commitFails db data).2 = none ∧
        (store_crypto_data commitFails db data).1 =
          { db with crypto_prices := db.crypto_prices ++ data } ∧
        data.any commitFails = false) ∨
    ((store_crypto_data commitFails db data).2 = some "Error storing crypto data" ∧
        (store_crypto_data commitFails db data).1 = db ∧
        data.any commitFails = true) := by
  cases h : data.any commitFails
  · exact Or.inl ⟨by simp [store_crypto_data_eq, h], by simp [store_crypto_data_eq, h], rfl⟩
  · exact Or.inr ⟨by simp [store_crypto_data_eq, h], by simp [store_crypto_data_eq, h], rfl⟩

/-- C3: for every input frame and every symbol occurring in it, analyze
emits exactly one entry for that symbol, and it is computed from the
FIRST row of that symbol in iteration order. -/
theorem analyze_first_wins (a : TradeAnalyzer) (data : List Quote)
    (s : String) (q : Quote)
    (h : data.find? (fun r => r.symbol == s) = some q) :
    ∃ out, a.analyze data = .ok out ∧
      out.filter (fun p => p.1 == s) = [(s, signalFor q)] := by
  have hmem : q ∈ data := List.mem_of_find?_eq_some h
  have hqs : q.symbol = s := by simpa using List.find?_some h
  have hne : data.isEmpty = false := by
    cases data
    · cases hmem
    · rfl
  have hs : s ∈ uniqueVals (data.map Quote.symbol) := by
    rw [mem_uniqueVals]
    exact hqs ▸ List.mem_map_of_mem Quote.symbol hmem
  have hall : ∀ t ∈ uniqueVals (data.map Quote.symbol), ∃ r ∈ data, r.symbol = t := by
    intro t ht
    obtain ⟨r, hr, hrt⟩ := List.mem_map.mp ((mem_uniqueVals _ _).mp ht)
    exact ⟨r, hr, hrt⟩
  obtain ⟨out, hout, hfil⟩ :=
    analyzeRows_filter_first data _ s q (nodup_uniqueVals _) hs hall h
  exact ⟨out, by simp [TradeAnalyzer.analyze, getColumn, hne, hout], hfil⟩

/-- C3 witness: on a frame holding two BTC rows, the earlier of which
would give BUY and the later SELL, analyze emits the single entry BUY,
computed from the first occurrence. -/
theorem analyze_first_wins_witness :
    (∃ out, (TradeAnalyzer.mk 24).analyze [wFirstBTC, wLaterBTC] = .ok out ∧
        out.filter (fun p => p.1 == "BTC") = [("BTC", signalFor wFirstBTC)]) ∧
    signalFor wFirstBTC = .BUY ∧ signalFor wLaterBTC = .SELL :=
  ⟨analyze_first_wins (TradeAnalyzer.mk 24) [wFirstBTC, wLaterBTC] "BTC" wFirstBTC rfl,
   by norm_num [signalFor, wFirstBTC], by norm_num [signalFor, wLaterBTC]⟩

/-- C8 counterexample: on the empty frame (as the fetcher produces for an
empty result) analyze raises KeyError on the missing symbol column
instead of returning an empty mapping. -/
theorem analyze_empty_raises :
    (TradeAnalyzer.mk 24).analyze [] = .error (.keyError "symbol") := rfl

/-- C8 (amended): analyze never raises on any nonempty sequence of
quotes: it returns a mapping without error. (On the empty frame it
raises, see the counterexample.) -/
theorem analyze_total_on_nonempty (a : TradeAnalyzer) (data : List Quote)
    (h : data ≠ []) :
    ∃ out, a.analyze data = .ok out := by
  have hne : data.isEmpty = false := by
    cases data
    · exact absurd rfl h
    · rfl
  have hall : ∀ s ∈ uniqueVals (data.map Quote.symbol), ∃ r ∈ data, r.symbol = s := by
    intro s hsu
    obtain ⟨r, hr, hrs⟩ := List.mem_map.mp ((mem_uniqueVals _ _).mp hsu)
    exact ⟨r, hr, hrs⟩
  obtain ⟨out, hout, _⟩ := analyzeRows_ok data (uniqueVals (data.map Quote.symbol)) hall
  exact ⟨out, by simp [TradeAnalyzer.analyze, getColumn, hne, hout]⟩

/-- C8 witness: analyze succeeds on a concrete one-row frame. -/
theorem analyze_total_on_nonempty_witness :
    ∃ out, (TradeAnalyzer.mk 24).analyze [wFirstBTC] = .ok out :=
  analyze_total_on_nonempty (TradeAnalyzer.mk 24) [wFirstBTC] (List.cons_ne_nil _ _)

/-- C9: the lookback_periods knob is dead configuration: two analyzers
differing only in it classify every frame identically. -/
theorem analyze_ignores_lookback (l1 l2 : ℕ) (data : List Quote) :
    (TradeAnalyzer.mk l1).analyze data = (TradeAnalyzer.mk l2).analyze data := rfl

/-- Unfolding of an uninterrupted cycle. -/
theorem runCycle_false_eq (now : ℕ) (symbols : List String) (a : TradeAnalyzer)
    (qFail : Quote → Bool) (sFail : SignalRow → Bool) (db : DB) (env : FetchEnv) :
    runCycle now symbols a qFail sFail db false env =
      match get_latest_prices now symbols env with
      | none => (db, .sleep 300)
      | some rows =>
        match store_crypto_data qFail db rows with
        | (db1, some _) => (db1, .sleep 60)
        | (db1, none) =>
          match a.analyze rows with
          | .error _ => (db1, .sleep 60)
          | .ok signals =>
            match store_signals sFail now db1 signals with
            | (db2, some _) => (db2, .sleep 60)
            | (db2, none) => (db2, .sleep 300) := rfl

/-- Branch-by-branch behaviour of an uninterrupted cycle. -/
theorem runCycle_cases (now : ℕ) (symbols : List String) (a : TradeAnalyzer)
    (qFail : Quote → Bool) (sFail : SignalRow → Bool) (db : DB) (env : FetchEnv) :
    (get_latest_prices now symbols env = none →
        runCycle now symbols a qFail sFail db false env = (db, .sleep 300)) ∧
    (∀ rows db1 msg, get_latest_prices now symbols env = some rows →
        store_crypto_data qFail db rows = (db1, some msg) →
        runCycle now symbols a qFail sFail db false env = (db1, .sleep 60)) ∧
    (∀ rows db1 e, get_latest_prices now symbols env = some rows →
        store_crypto_data qFail db rows = (db1, none) →
        a.analyze rows = .error e →
        runCycle now symbols a qFail sFail db false env = (db1, .sleep 60)) ∧
    (∀ rows db1 signals db2 msg, get_latest_prices now symbols env = some rows →
        store_crypto_data qFail db rows = (db1, none) →
        a.analyze rows = .ok signals →
        store_signals sFail now db1 signals = (db2, some msg) →
        runCycle now symbols a qFail sFail db false env = (db2, .sleep 60)) ∧
    (∀ rows db1 signals db2, get_latest_prices now symbols env = some rows →
        store_crypto_data qFail db rows = (db1, none) →
        a.analyze rows = .ok signals →
        store_signals sFail now db1 signals = (db2, none) →
        runCycle now symbols a qFail sFail db false env = (db2, .sleep 300)) := by
  refine ⟨?_, ?_, ?_, ?_, ?_⟩
  · intro hg
    rw [runCycle_false_eq, hg]
  · intro rows db1 msg hg hsc
    rw [runCycle_false_eq, hg]
    simp [hsc]
  · intro rows db1 e hg hsc ha
    rw [runCycle_false_eq, hg]
    simp [hsc, ha]
  · intro rows db1 signals db2 msg hg hsc ha hss
    rw [runCycle_false_eq, hg]
    simp [hsc, ha, hss]
  · intro rows db1 signals db2 hg hsc ha hss
    rw [runCycle_false_eq, hg]
    simp [hsc, ha, hss]

/-- An uninterrupted cycle always ends in a sleep, never in a stop. -/
theorem runCycle_sleeps (now : ℕ) (symbols : List String) (a : TradeAnalyzer)
    (qFail : Quote → Bool) (sFail : SignalRow → Bool) (db : DB) (env : FetchEnv) :
    ∃ n, (runCycle now symbols a qFail sFail db false env).2 = .sleep n := by
  rw [runCycle_false_eq]
  cases hg : get_latest_prices now symbols env with
  | none => exact ⟨300, rfl⟩
  | some rows =>
    rcases hsc : store_crypto_data qFail db rows with ⟨db1, e⟩
    cases e with
    | some msg => exact ⟨60, by simp [hsc]⟩
    | none =>
      cases ha : a.analyze rows with
      | error e => exact ⟨60, by simp [hsc, ha]⟩
      | ok signals =>
        rcases hss : store_signals sFail now db1 signals with ⟨db2, e2⟩
        cases e2 with
        | some msg => exact ⟨60, by simp [hsc, ha, hss]⟩
        | none => exact ⟨300, by simp [hsc, ha, hss]⟩

/-- A run in which no KeyboardInterrupt arrives never stops the loop. -/
theorem runLoop_no_interrupt (now : ℕ) (symbols : List String) (a : TradeAnalyzer)
    (qFail : Quote → Bool) (sFail : SignalRow → Bool) (envs : List CycleEnv)
    (db : DB) (h : ∀ e ∈ envs, e.interrupted = false) :
    (runLoop now symbols a qFail sFail envs db).2 = false := by
  induction envs generalizing db with
  | nil => rfl
  | cons e rest ih =>
    have he : e.interrupted = false := h e (List.mem_cons_self e rest)
    obtain ⟨n, hn⟩ := runCycle_sleeps now symbols a qFail sFail db e.fetch
    rcases hc : runCycle now symbols a qFail sFail db e.interrupted e.fetch with ⟨db1, o⟩
    rw [he] at hc
    rw [hc] at hn
    simp only at hn
    subst hn
    have : runLoop now symbols a qFail sFail (e :: rest) db =
        runLoop now symbols a qFail sFail rest db1 := by
      rw [runLoop, he, hc]
    rw [this]
    exact ih db1 (fun u hu => h u (List.mem_cons_of_mem e hu))

/-- C4 counterexample: on a fetch transport error the cycle sleeps the
normal 300 seconds, not the 60 second recovery interval the claim
requires: the fetcher catches the exception itself and returns None, so
no error ever reaches the recovery branch of the loop. -/
theorem transport_error_takes_normal_sleep :
    runCycle 0 ["BTC"] (TradeAnalyzer.mk 24) (fun _ => false) (fun _ => false)
        (DB.mk [] []) false .raises = (DB.mk [] [], .sleep 300) ∧
    CycleOutcome.sleep 300 ≠ CycleOutcome.sleep 60 :=
  ⟨rfl, by decide⟩

/-- C4 (amended): a store error or an unexpected error raised inside the
loop body is caught at the top level and followed by the 60 second
recovery sleep, after which the loop resumes; a fetch transport error
never raises into the loop: the fetcher swallows it and returns no data,
and the cycle sleeps the normal 300 seconds. The loop stops only on
explicit cancellation (KeyboardInterrupt); when the startup connection
fails the loop is never entered at all. -/
theorem loop_error_recovery (now : ℕ) (symbols : List String) (a : TradeAnalyzer)
    (qFail : Quote → Bool) (sFail : SignalRow → Bool) (db : DB) (env : FetchEnv) :
    (runCycle now symbols a qFail sFail db true env = (db, .stopped)) ∧
    (∃ n, (runCycle now symbols a qFail sFail db false env).2 = .sleep n) ∧
    (env = .raises →
        runCycle now symbols a qFail sFail db false env = (db, .sleep 300)) ∧
    (∀ rows db1 msg, get_latest_prices now symbols env = some rows →
        store_crypto_data qFail db rows = (db1, some msg) →
        runCycle now symbols a qFail sFail db false env = (db1, .sleep 60)) ∧
    (∀ rows db1 signals db2 msg, get_latest_prices now symbols env = some rows →
        store_crypto_data qFail db rows = (db1, none) →
        a.analyze rows = .ok signals →
        store_signals sFail now db1 signals = (db2, some msg) →
        runCycle now symbols a qFail sFail db false env = (db2, .sleep 60)) ∧
    (∀ envs : List CycleEnv, (∀ e ∈ envs, e.interrupted = false) →
        (runLoop now symbols a qFail sFail envs db).2 = false) ∧
    (∀ envs, mainRun true now symbols qFail sFail envs = none) := by
  refine ⟨rfl, runCycle_sleeps now symbols a qFail sFail db env, ?_, ?_, ?_, ?_, ?_⟩
  · intro he
    subst he
    exact (runCycle_cases now symbols a qFail sFail db .raises).1 rfl
  · exact (runCycle_cases now symbols a qFail sFail db env).2.1
  · exact (runCycle_cases now symbols a qFail sFail db env).2.2.2.1
  · intro envs hno
    exact runLoop_no_interrupt now symbols a qFail sFail envs db hno
  · intro envs
    rfl

/-- C4 witness: with a database that rejects every quote row, a cycle
whose fetch succeeds ends in the 60 second recovery sleep with the stored
state rolled back. -/
theorem loop_error_recovery_witness :
    runCycle 0 ["BTC"] (TradeAnalyzer.mk 24) (fun _ => true) (fun _ => false)
        (DB.mk [] []) false (.responds wRespBTC) = (DB.mk [] [], .sleep 60) :=
  (loop_error_recovery 0 ["BTC"] (TradeAnalyzer.mk 24) (fun _ => true)
      (fun _ => false) (DB.mk [] []) (.responds wRespBTC)).2.2.2.1
    [wQuoteBTC] (DB.mk [] []) "Error storing crypto data" rfl rfl

/-- C5 counterexample: a successful fetch whose result is empty (a 200
response containing none of the requested symbols) does not skip the
cycle body and does not sleep the full 300 seconds: the cycle enters the
processing branch, commits an empty batch, classification raises KeyError
on the column-less empty frame, and the cycle ends in the 60 second
recovery sleep. -/
theorem empty_result_not_full_sleep :
    get_latest_prices 0 ["BTC"] (.responds wRespEmpty) = some [] ∧
    runCycle 0 ["BTC"] (TradeAnalyzer.mk 24) (fun _ => false) (fun _ => false)
        (DB.mk [] []) false (.responds wRespEmpty) = (DB.mk [] [], .sleep 60) ∧
    CycleOutcome.sleep 60 ≠ CycleOutcome.sleep 300 :=
  ⟨rfl, rfl, by decide⟩

/-- C5 (amended): when the fetch returns None (transport failure or
non-200 response) the cycle performs no storage, no classification and no
report, leaves the database unchanged, and sleeps the full 300 seconds.
When the fetch succeeds but with an empty result, the cycle does enter
the processing branch: it commits an empty quote batch (leaving the
stored state unchanged), classification raises on the column-less empty
frame, and the cycle sleeps the 60 second recovery interval. -/
theorem no_data_cycle (now : ℕ) (symbols : List String) (qFail : Quote → Bool)
    (sFail : SignalRow → Bool) (db : DB) (env : FetchEnv) :
    (get_latest_prices now symbols env = none →
        runCycle now symbols (TradeAnalyzer.mk 24) qFail sFail db false env =
          (db, .sleep 300)) ∧
    (get_latest_prices now symbols env = some [] →
        runCycle now symbols (TradeAnalyzer.mk 24) qFail sFail db false env =
          (db, .sleep 60)) := by
  constructor
  · exact (runCycle_cases now symbols (TradeAnalyzer.mk 24) qFail sFail db env).1
  · intro hg
    have hsc : store_crypto_data qFail db [] = (db, none) := by
      simp [store_crypto_data_eq]
    exact (runCycle_cases now symbols (TradeAnalyzer.mk 24) qFail sFail db env).2.2.1
      [] db (.keyError "symbol") hg hsc rfl

/-- C5 witness: the None path at a transport error sleeps 300 with the
database untouched; the empty-result path sleeps 60. -/
theorem no_data_cycle_witness :
    runCycle 0 ["BTC"] (TradeAnalyzer.mk 24) (fun _ => false) (fun _ => false)
        (DB.mk [] []) false .raises = (DB.mk [] [], .sleep 300) ∧
    runCycle 0 ["ETH"] (TradeAnalyzer.mk 24) (fun _ => false) (fun _ => false)
        (DB.mk [] []) false (.responds wRespEmpty) = (DB.mk [] [], .sleep 60) :=
  ⟨(no_data_cycle 0 ["BTC"] (fun _ => false) (fun _ => false) (DB.mk [] []) .raises).1 rfl,
   (no_data_cycle 0 ["ETH"] (fun _ => false) (fun _ => false) (DB.mk [] [])
      (.responds wRespEmpty)).2 rfl⟩

/-- C6: get_recent_prices returns at most limit quotes, ordered most
recent first by timestamp, all of the requested symbol; it returns the
empty sequence, never an error, both on a read failure and when the
symbol has no stored history; and on a concrete database holding ten BTC
quotes observed at times 0-9, a call with limit 5 returns exactly the
five most recent, newest first. -/
theorem get_recent_prices_spec (db : DB) (readFails : Bool) (s : String)
    (limit : ℕ) :
    ((get_recent_prices db readFails s limit).length ≤ limit) ∧
    (List.Sorted newestFirst (get_recent_prices db readFails s limit)) ∧
    (∀ q ∈ get_recent_prices db readFails s limit, q.symbol = s) ∧
    (get_recent_prices db true s limit = []) ∧
    ((∀ q ∈ db.crypto_prices, q.symbol ≠ s) →
        get_recent_prices db readFails s limit = []) ∧
    (get_recent_prices wdbTen false "BTC" 5 =
        [wbtc 9, wbtc 8, wbtc 7, wbtc 6, wbtc 5]) := by
  refine ⟨?_, ?_, ?_, rfl, ?_, ?_⟩
  · cases readFails
    · simp [get_recent_prices, List.length_take_le]
    · simp [get_recent_prices]
  · cases readFails
    · have hs := List.sorted_insertionSort newestFirst
        (db.crypto_prices.filter (fun q => q.symbol == s))
      simp only [get_recent_prices, Bool.false_eq_true, if_false]
      exact List.Pairwise.sublist (List.take_sublist _ _) hs
    · simp [get_recent_prices]
  · intro q hq
    cases readFails
    · simp only [get_recent_prices, Bool.false_eq_true, if_false] at hq
      have h1 : q ∈ (db.crypto_prices.filter
          (fun r => r.symbol == s)).insertionSort newestFirst :=
        (List.take_sublist _ _).subset hq
      have h2 : q ∈ db.crypto_prices.filter (fun r => r.symbol == s) :=
        (List.perm_insertionSort newestFirst _).subset h1
      simpa using (List.mem_filter.mp h2).2
    · simp [get_recent_prices] at hq
  · intro h
    cases readFails
    · have hfil : db.crypto_prices.filter (fun q => q.symbol == s) = [] := by
        rw [List.filter_eq_nil_iff]
        intro q hq
        simpa using h q hq
      simp [get_recent_prices, hfil]
    · rfl
  · rfl

/-- C6 witness: at most five rows come back from the ten-quote database,
and the symbol ETH, which has no history there, yields the empty
sequence. -/
theorem get_recent_prices_spec_witness :
    (get_recent_prices wdbTen false "BTC" 5).length ≤ 5 ∧
    get_recent_prices wdbTen false "ETH" 5 = [] :=
  ⟨(get_recent_prices_spec wdbTen false "BTC" 5).1,
   (get_recent_prices_spec wdbTen false "ETH" 5).2.2.2.2.1 (by decide)⟩

/-- C7: on a 200 response, the fetcher silently omits every requested
symbol absent from the data object and emits exactly one quote per
requested symbol present, in requested order: the symbols of the output
are exactly the requested symbols filtered by presence. -/
theorem get_latest_prices_omits_absent (now : ℕ) (symbols : List String)
    (resp : ApiResponse) (h : resp.status_code = 200) :
    ∃ out, get_latest_prices now symbols (.responds resp) = some out ∧
      out.map Quote.symbol =
        symbols.filter (fun s => (resp.data.lookup s).isSome) := by
  refine ⟨symbols.filterMap (fun s =>
      (resp.data.lookup s).map (fun cd =>
        { symbol := s, price := cd.price, volume_24h := cd.volume_24h,
          percent_change_24h := cd.percent_change_24h, timestamp := now })),
    by simp [get_latest_prices, h], ?_⟩
  induction symbols with
  | nil => rfl
  | cons s rest ih =>
    cases hl : resp.data.lookup s
    · simp [List.filterMap_cons, List.filter_cons, hl, ih]
    · simp [List.filterMap_cons, List.filter_cons, hl, ih]

/-- C7 witness: requesting BTC and ZZZ against a response that only
carries BTC yields the one-element sequence holding the BTC quote and no
error. -/
theorem get_latest_prices_omits_absent_witness :
    (∃ out, get_latest_prices 0 ["BTC", "ZZZ"] (.responds wRespBTC) = some out ∧
        out.map Quote.symbol =
          ["BTC", "ZZZ"].filter (fun s => (wRespBTC.data.lookup s).isSome)) ∧
    get_latest_prices 0 ["BTC", "ZZZ"] (.responds wRespBTC) = some [wQuoteBTC] :=
  ⟨get_latest_prices_omits_absent 0 ["BTC", "ZZZ"] wRespBTC rfl, rfl⟩

/-- C10: a call of get_recent_prices that omits the limit argument
behaves exactly as a call with limit 24 and returns at most 24 quotes. -/
theorem get_recent_prices_default_spec (db : DB) (readFails : Bool) (s : String) :
    get_recent_prices_default db readFails s = get_recent_prices db readFails s 24 ∧
    (get_recent_prices_default db readFails s).length ≤ 24 := by
  refine ⟨rfl, ?_⟩
  cases readFails
  · simp [get_recent_prices_default, get_recent_prices, List.length_take_le]
  · simp [get_recent_prices_default, get_recent_prices]

end CryptoTrader
